import Mathlib

/-!
Verification development for the package-directory site: the repository
loader (manifest fetching, tag index, text/tag filtering, URL state codec)
and the download counter (cached release-count aggregation and count
formatting).  Each JavaScript function is shallowly embedded as a Lean
definition; network fetches are modelled by an explicit environment
function, the mutable tag set and download-count cache by explicit state
passing, and a thrown exception by an `Option` result.
-/

/-! ### String helpers (JavaScript string primitives over `List Char`) -/

/-- `pat` occurs as a contiguous substring of `s` (JavaScript `s.includes(pat)`). -/
def charsContains (s pat : List Char) : Bool :=
  if pat.isPrefixOf s then true
  else match s with
    | [] => false
    | _ :: cs => charsContains cs pat

/-- JavaScript `s.includes(pat)`. -/
def jsIncludes (s pat : String) : Bool := charsContains s.data pat.data

/-- JavaScript `String.prototype.split` with a single-character separator:
accumulates the current field and emits it at each separator. -/
def splitChars (sep : Char) : List Char → List Char → List (List Char)
  | [], acc => [acc.reverse]
  | c :: cs, acc =>
    if c = sep then acc.reverse :: splitChars sep cs []
    else splitChars sep cs (c :: acc)

/-- JavaScript `s.split(sep)` for a one-character separator. -/
def jsSplit (s : String) (sep : Char) : List String :=
  (splitChars sep s.data []).map String.mk

/-- JavaScript `Array.prototype.join` with a one-character separator. -/
def joinChars (sep : Char) : List (List Char) → List Char
  | [] => []
  | [l] => l
  | l :: l' :: ls => l ++ sep :: joinChars sep (l' :: ls)

/-- JavaScript `arr.join(sep)` for a one-character separator. -/
def jsJoin (l : List String) (sep : Char) : String :=
  String.mk (joinChars sep (l.map String.data))

/-- ASCII lowercasing of one character (JavaScript `toLowerCase` restricted
to the ASCII range the manifests use). -/
def jsLowerChar (c : Char) : Char :=
  if 'A' ≤ c ∧ c ≤ 'Z' then Char.ofNat (c.toNat + 32) else c

/-- JavaScript `s.toLowerCase()`. -/
def jsToLower (s : String) : String := String.mk (s.data.map jsLowerChar)

/-- JavaScript whitespace for `trim` (the characters occurring in practice). -/
def isJsSpace (c : Char) : Bool := c = ' ' ∨ c = '\t' ∨ c = '\n' ∨ c = '\r'

/-- JavaScript `s.trim()`: strip leading and trailing whitespace. -/
def jsTrim (s : String) : String :=
  String.mk (((s.data.dropWhile isJsSpace).reverse.dropWhile isJsSpace).reverse)

/-! ### Data model

A raw manifest as decoded from a repository's `package.json` / `manifest.json`.
Fields the code reads without guarding (`name`, `description`) are typed as
present, per the manifest schema; optional fields are `Option`s.  The
`author` field may be absent, a plain string, or an object whose `name`
sub-field may itself be absent. -/

inductive AuthorField where
  | absent
  | str (s : String)
  | obj (name : Option String)
deriving DecidableEq, Repr

structure ManifestLinks where
  download : Option String := none
  github : Option String := none
  documentation : Option String := none
  release : Option String := none
deriving DecidableEq, Repr

structure RawManifest where
  name : String
  displayName : Option String := none
  author : AuthorField := .absent
  description : String := ""
  version : String := ""
  status : Option String := none
  keywords : Option (List String) := none
  tags : Option (List String) := none
  icon : Option String := none
  links : Option ManifestLinks := none
deriving DecidableEq, Repr

/-- `pkg.displayName || pkg.name` (an empty string is falsy in JavaScript). -/
def resolvedDisplayName (p : RawManifest) : String :=
  match p.displayName with
  | some d => if d = "" then p.name else d
  | none => p.name

/-- `pkg.keywords || pkg.tags || []`: an array (even empty) is truthy, so a
present `keywords` field always wins. -/
def pkgTags (p : RawManifest) : List String :=
  match p.keywords with
  | some ks => ks
  | none =>
    match p.tags with
    | some ts => ts
    | none => []

/-- `pkg.author?.name || pkg.author || ''` as evaluated inside `applyFilters`.
The result is the JavaScript value bound to `authorName`: `some s` when it is
a string, `none` when it is the author object itself (which happens when the
object has an absent or empty `name`); in the latter case the subsequent
`.toLowerCase()` call throws. -/
def filterAuthorName : AuthorField → Option String
  | .absent => some ""
  | .str s => some s
  | .obj (some n) => if n = "" then none else some n
  | .obj none => none

/-- `pkg.author?.name || pkg.author || 'Unknown'` as interpolated into the
card template in `createPackageCard`; a fallen-through author object
stringifies to `"[object Object]"`. -/
def cardAuthorName : AuthorField → String
  | .absent => "Unknown"
  | .str s => if s = "" then "Unknown" else s
  | .obj (some n) => if n = "" then "[object Object]" else n
  | .obj none => "[object Object]"

/-- `pkg.status || 'unknown'`. -/
def resolvedStatus (p : RawManifest) : String :=
  match p.status with
  | some s => if s = "" then "unknown" else s
  | none => "unknown"

/-- `pkg.icon || 'https://via.placeholder.com/400x200?text=No+Image'`. -/
def resolvedIcon (p : RawManifest) : String :=
  match p.icon with
  | some i => if i = "" then "https://via.placeholder.com/400x200?text=No+Image" else i
  | none => "https://via.placeholder.com/400x200?text=No+Image"

/-- The normalized card-level view of a package, as computed (field by field)
in `createPackageCard`. -/
structure Package where
  displayName : String
  packageName : String
  authorName : String
  description : String
  version : String
  status : String
  tags : List String
  icon : String
deriving DecidableEq, Repr

/-- The normalization performed by `createPackageCard` on a raw manifest. -/
def normalizeManifest (p : RawManifest) : Package where
  displayName := resolvedDisplayName p
  packageName := p.name
  authorName := cardAuthorName p.author
  description := p.description
  version := p.version
  status := resolvedStatus p
  tags := pkgTags p
  icon := resolvedIcon p

/-! ### FilterEngine: `applyFilters` -/

/-- Case-insensitive containment as the code computes it:
`field.toLowerCase().includes(term)` where `term` is already lowercased. -/
def lcIncludes (field term : String) : Bool := jsIncludes (jsToLower field) term

/-- The `matchesSearch` constant inside the filter callback, with JavaScript
short-circuit evaluation: the author field is only reached when the earlier
disjuncts are false, and evaluating it on a non-string author throws
(`none`). -/
def matchesSearch (term : String) (p : RawManifest) : Option Bool :=
  if term = "" then some true
  else if lcIncludes p.name term then some true
  else if lcIncludes (resolvedDisplayName p) term then some true
  else if lcIncludes p.description term then some true
  else (filterAuthorName p.author).map (fun a => lcIncludes a term)

/-- The `matchesTags` constant inside the filter callback. -/
def matchesTags (selectedTags : List String) (p : RawManifest) : Bool :=
  selectedTags.isEmpty || (pkgTags p).any (fun t => selectedTags.contains t)

/-- One evaluation of the filter callback: `matchesSearch && matchesTags`. -/
def pkgMatch (term : String) (selectedTags : List String) (p : RawManifest) : Option Bool :=
  (matchesSearch term p).map (fun ms => ms && matchesTags selectedTags p)

/-- `this.packages.filter(...)`: the callback runs left to right and a thrown
exception aborts the whole filter (`none`). -/
def filterPkgs (term : String) (selectedTags : List String) :
    List RawManifest → Option (List RawManifest)
  | [] => some []
  | p :: ps =>
    match pkgMatch term selectedTags p with
    | none => none
    | some b =>
      match filterPkgs term selectedTags ps with
      | none => none
      | some rest => some (if b then p :: rest else rest)

/-- `applyFilters`: lowercases the search box value once, then filters the
package list.  `none` models the filter throwing (non-string author value
reached by the search match). -/
def applyFilters (packages : List RawManifest) (query : String)
    (selectedTags : List String) : Option (List RawManifest) :=
  filterPkgs (jsToLower query) selectedTags packages

/-! ### ViewStateCodec: `updateURL` and `loadFromURL` -/

/-- One step of `name.toLowerCase().replace(/[^a-z0-9]+/g, '-')`: the flag
records whether the previous character was part of a replaced run. -/
def collapseRuns (inRun : Bool) : List Char → List Char
  | [] => []
  | c :: cs =>
    if ('a' ≤ c ∧ c ≤ 'z') ∨ ('0' ≤ c ∧ c ≤ '9') then c :: collapseRuns false cs
    else if inRun then collapseRuns true cs
    else '-' :: collapseRuns true cs

/-- The card id / slug of a package:
`pkg.name.toLowerCase().replace(/[^a-z0-9]+/g, '-')`. -/
def slug (name : String) : String :=
  String.mk (collapseRuns false (jsToLower name).data)

/-- The decoded URL state handed to `loadFromURL`: the query parameters (in
order, as an association list faithful to `URLSearchParams`) and the fragment
with its leading `#` already removed. -/
structure UrlState where
  params : List (String × String)
  hash : String
deriving DecidableEq, Repr

/-- `URLSearchParams.get`: first value for the key, `null` (`none`) if absent. -/
def paramGet (ps : List (String × String)) (k : String) : Option String :=
  (ps.find? (fun kv => kv.1 == k)).map (fun kv => kv.2)

/-- JavaScript `a || b` on nullable strings (`null` and `""` are falsy). -/
def jsOrStr (a b : Option String) : Option String :=
  match a with
  | some s => if s = "" then b else some s
  | none => b

/-- Truthiness of a nullable string. -/
def strTruthy (o : Option String) : Bool :=
  match o with
  | some s => s ≠ ""
  | none => false

/-- JavaScript default `Array.prototype.sort` on strings: lexicographic
comparison, modelled with Lean's string order. -/
def sortStrings (l : List String) : List String :=
  l.mergeSort (fun a b => a ≤ b)

/-- `updateURL`: builds the query parameter list from the trimmed search box
value and the sorted, comma-joined selected tags.  `history.pushState` then
installs a URL with these parameters and no fragment. -/
def updateURL (searchValue : String) (selectedTags : List String) :
    List (String × String) :=
  (if jsTrim searchValue ≠ "" then [("search", jsTrim searchValue)] else []) ++
  (if selectedTags.isEmpty then []
   else [("tags", jsJoin (sortStrings selectedTags) ',')])

/-- The URL produced by `updateURL` for a view state: its parameters plus an
empty fragment (`pushState` replaces the whole URL, dropping any hash). -/
def encodedUrl (searchValue : String) (selectedTags : List String) : UrlState :=
  ⟨updateURL searchValue selectedTags, ""⟩

/-- The selected-tag set reconstructed by `loadFromURL` from a `tags`
parameter value: split on commas, trim, drop empties, keep members of
`allTags`. -/
def decodeTags (allTags : List String) (raw : String) : List String :=
  (((jsSplit raw ',').map jsTrim).filter (fun t => t ≠ "")).filter
    (fun t => allTags.contains t)

/-- `loadFromURL`: resets the view state, then either (a) with a fragment and
no query parameters at all, filters to the packages whose slug equals the
fragment, or (b) decodes `search`/`q` and `tags` parameters and runs
`applyFilters`, or (c) with neither parameter shows every package.  The
result is the new `filteredPackages` (`none` when `applyFilters` throws). -/
def loadFromURL (packages : List RawManifest) (allTags : List String)
    (u : UrlState) : Option (List RawManifest) :=
  if u.hash ≠ "" ∧ u.params = [] then
    some (packages.filter (fun p => slug p.name == u.hash))
  else
    let searchQuery := jsOrStr (paramGet u.params "search") (paramGet u.params "q")
    let searchValue := if strTruthy searchQuery then searchQuery.getD "" else ""
    let tagsParam := paramGet u.params "tags"
    let selectedTags :=
      if strTruthy tagsParam then decodeTags allTags (tagsParam.getD "") else []
    if strTruthy searchQuery ∨ strTruthy tagsParam then
      applyFilters packages searchValue selectedTags
    else
      some packages

/-! ### ManifestFetcher: `convertToRawUrl`, `loadManifest`, `loadManifests` -/

/-- Attempt of the regex `github\.com\/([^\/]+)\/([^\/]+)` at one position:
the literal `github.com/`, a nonempty run without `/`, a `/`, and another
nonempty run without `/`. -/
def githubMatchAt (l : List Char) : Option (List Char × List Char) :=
  if "github.com/".data.isPrefixOf l then
    let rest := l.drop "github.com/".data.length
    let owner := rest.takeWhile (fun c => c ≠ '/')
    match rest.drop owner.length with
    | '/' :: r =>
      let repo := r.takeWhile (fun c => c ≠ '/')
      if owner ≠ [] ∧ repo ≠ [] then some (owner, repo) else none
    | _ => none
  else none

/-- Left-to-right scan for the first position where the regex matches. -/
def githubScan : List Char → Option (List Char × List Char)
  | [] => none
  | c :: cs =>
    match githubMatchAt (c :: cs) with
    | some x => some x
    | none => githubScan cs

/-- `repo.replace(/\.git$/, '')`. -/
def stripDotGit (repo : List Char) : List Char :=
  if ".git".data.isSuffixOf repo then repo.take (repo.length - 4) else repo

/-- `convertToRawUrl`: raw-host URLs pass through; recognized
`github.com/owner/repo` shapes are rewritten to the raw-content default
branch root; anything else passes through unchanged. -/
def convertToRawUrl (url : String) : String :=
  if jsIncludes url "raw.githubusercontent.com" then url
  else
    match githubScan url.data with
    | some (owner, repo) =>
      "https://raw.githubusercontent.com/" ++ String.mk owner ++ "/" ++
        String.mk (stripDotGit repo) ++ "/main"
    | none => url

/-- The manifest URL fetched for a repository source. -/
def manifestUrl (repoUrl : String) : String :=
  convertToRawUrl repoUrl ++ "/package.json"

/-- Outcome of fetching and JSON-decoding one manifest URL, the external
behaviour `loadManifest` depends on. -/
inductive ManifestFetch where
  | netFail
  | badJson
  | ok (m : RawManifest)
deriving DecidableEq, Repr

/-- `Set.prototype.add` on the tag set, modelled as an insertion-ordered
duplicate-free list. -/
def jsSetAdd (l : List String) (t : String) : List String :=
  if l.contains t then l else l ++ [t]

/-- `tags.forEach(tag => this.allTags.add(tag))`. -/
def addTags (allTags : List String) : List String → List String
  | [] => allTags
  | t :: ts => addTags (jsSetAdd allTags t) ts

/-- `loadManifest`: fetch the manifest URL; on success add the manifest's
tags to `allTags` and return the manifest, on any failure (caught `try`)
return `null` with `allTags` untouched. -/
def loadManifest (env : String → ManifestFetch) (repoUrl : String)
    (allTags : List String) : Option RawManifest × List String :=
  match env (manifestUrl repoUrl) with
  | .ok m => (some m, addTags allTags (pkgTags m))
  | _ => (none, allTags)

/-- The package `loadManifest` contributes, ignoring the tag side effect. -/
def loadManifestPkg (env : String → ManifestFetch) (repoUrl : String) :
    Option RawManifest :=
  (loadManifest env repoUrl []).1

/-- `loadManifests`: `Promise.allSettled` over all sources (every promise
fulfills, since `loadManifest` catches internally), keeping fulfilled
non-null values in source order; the tag set accumulates across the batch. -/
def loadManifests (env : String → ManifestFetch) (sources : List String)
    (allTags : List String) : List RawManifest × List String :=
  match sources with
  | [] => ([], allTags)
  | s :: ss =>
    let first := loadManifest env s allTags
    let rest := loadManifests env ss first.2
    (match first.1 with
     | some m => m :: rest.1
     | none => rest.1,
     rest.2)

/-- The packages collected by a batch. -/
def loadPackages (env : String → ManifestFetch) (sources : List String) :
    List RawManifest :=
  (loadManifests env sources []).1

/-- `buildTagsList`: `Array.from(this.allTags).sort()`, the sorted tag
listing driving the filter panel. -/
def buildTagsList (allTags : List String) : List String :=
  sortStrings allTags

/-! ### DownloadCounter: `fetchDownloadCount` and `formatCount` -/

/-- One asset of a release; `download_count` may be absent
(`asset.download_count || 0`). -/
structure ReleaseAsset where
  download_count : Option Nat := none
deriving DecidableEq, Repr

/-- One release; `assets = none` models a missing or non-array `assets`
field, which the code skips. -/
structure Release where
  assets : Option (List ReleaseAsset) := none
deriving DecidableEq, Repr

/-- `asset.download_count || 0`. -/
def assetCount (a : ReleaseAsset) : Nat := a.download_count.getD 0

/-- The contribution of one release to the total. -/
def releaseTotal (r : Release) : Nat :=
  match r.assets with
  | some l => (l.map assetCount).sum
  | none => 0

/-- The `totalDownloads` accumulator after the double `forEach` loop. -/
def totalDownloads (releases : List Release) : Nat :=
  (releases.map releaseTotal).sum

/-- Behaviour of the network for one releases URL: transport failure, a
non-success HTTP status, an unparsable JSON body, or a decoded release
list. -/
inductive FetchOutcome where
  | transportError
  | httpError
  | badJson
  | ok (releases : List Release)
deriving DecidableEq, Repr

/-- The cache, keyed by exact URL string (`Map` as an association list). -/
abbrev DlCache : Type := List (String × Nat)

/-- `this.cache.has(url)` / `this.cache.get(url)`. -/
def cacheLookup (cache : DlCache) (url : String) : Option Nat :=
  (cache.find? (fun kv => kv.1 == url)).map (fun kv => kv.2)

/-- `fetchDownloadCount`: cache hit returns the cached value without
fetching; otherwise one underlying fetch happens — on success the summed
total is cached and returned, on any failure (catch block) `0` is returned
and nothing is cached.  The `Bool` records whether the underlying fetch was
performed. -/
def fetchDownloadCount (env : String → FetchOutcome) (cache : DlCache)
    (url : String) : Nat × DlCache × Bool :=
  match cacheLookup cache url with
  | some v => (v, cache, false)
  | none =>
    match env url with
    | .ok releases =>
      (totalDownloads releases, cache ++ [(url, totalDownloads releases)], true)
    | _ => (0, cache, true)

/-- Two consecutive calls for the same URL: values returned and the number of
underlying fetches performed. -/
def fetchTwice (env : String → FetchOutcome) (url : String) :
    Nat × Nat × Nat :=
  let first := fetchDownloadCount env [] url
  let second := fetchDownloadCount env first.2.1 url
  (first.1, second.1,
    (if first.2.2 then 1 else 0) + (if second.2.2 then 1 else 0))

/-! #### Binary64 model for `formatCount`

`formatCount` computes `count / 1000` (or `count / 1000000`) in IEEE-754
binary64 arithmetic and renders it with `toFixed(1)`.  The double quotient
is represented exactly as a natural numerator over the fixed denominator
`2 ^ 52`: `divDoubleNum c d / 2 ^ 52` is the correctly rounded (round to
nearest, ties to even) binary64 value of `c / d` for `1 ≤ d ≤ c`.  Both
`formatCount` branches keep the quotient at least `1` and far below
overflow, so neither subnormals nor infinities arise. -/

/-- Structural (fuel-based) base-2 logarithm, agreeing with `Nat.log2`. -/
def log2Fuel : Nat → Nat → Nat
  | 0, _ => 0
  | fuel + 1, n => if 2 ≤ n then log2Fuel fuel (n / 2) + 1 else 0

/-- `⌊log₂ n⌋` (0 at 0), kernel-reducible. -/
def natLog2 (n : Nat) : Nat := log2Fuel n n

/-- Round `num / den` to the nearest integer, ties to even. -/
def roundNearestEven (num den : Nat) : Nat :=
  let q := num / den
  let r := num % den
  if den < 2 * r then q + 1
  else if 2 * r < den then q
  else if q % 2 = 0 then q else q + 1

/-- Numerator (over `2 ^ 52`) of the binary64 value of `c / d` for
`1 ≤ d ≤ c`: the mantissa is the quotient scaled into `[2^52, 2^53)` and
rounded to nearest, ties to even. -/
def divDoubleNum (c d : Nat) : Nat :=
  let e := natLog2 (c / d)
  if e ≤ 52 then roundNearestEven (c * 2 ^ (52 - e)) d * 2 ^ e
  else roundNearestEven c (d * 2 ^ (e - 52)) * 2 ^ (e - 52) * 2 ^ 52

/-- The binary64 value of `c / d` as a rational. -/
def divDouble (c d : Nat) : ℚ :=
  (divDoubleNum c d : ℚ) / 2 ^ 52

/-- `Number.prototype.toFixed(1)` for the non-negative value `num / den`
(`den ≠ 0`): renders the integer `n` minimizing `|n/10 - num/den|`, ties
towards the larger `n`, i.e. `n = ⌊10 · num/den + 1/2⌋ = (20·num + den) /
(2·den)`, with one decimal digit. -/
def toFixed1 (num den : Nat) : String :=
  let n := (20 * num + den) / (2 * den)
  Nat.repr (n / 10) ++ "." ++ Nat.repr (n % 10)

/-- `formatCount`. -/
def formatCount (count : Nat) : String :=
  if 1000000 <= count then toFixed1 (divDoubleNum count 1000000) (2 ^ 52) ++ "M"
  else if 1000 <= count then toFixed1 (divDoubleNum count 1000) (2 ^ 52) ++ "K"
  else Nat.repr count

/-! ## Lemmas: the manifest batch -/

theorem loadManifest_fst (env : String → ManifestFetch) (url : String)
    (allTags : List String) :
    (loadManifest env url allTags).1 = loadManifestPkg env url := by
  unfold loadManifestPkg loadManifest
  cases env (manifestUrl url) <;> rfl

theorem loadManifests_fst (env : String → ManifestFetch) (sources : List String)
    (allTags : List String) :
    (loadManifests env sources allTags).1 =
      sources.filterMap (loadManifestPkg env) := by
  induction sources generalizing allTags with
  | nil => rfl
  | cons s ss ih =>
    simp only [loadManifests, loadManifest, loadManifestPkg, List.filterMap_cons]
    cases env (manifestUrl s) <;> simp [ih]

theorem loadPackages_eq (env : String → ManifestFetch) (sources : List String) :
    loadPackages env sources = sources.filterMap (loadManifestPkg env) :=
  loadManifests_fst env sources []

theorem mem_jsSetAdd (l : List String) (t u : String) :
    u ∈ jsSetAdd l t ↔ u ∈ l ∨ u = t := by
  unfold jsSetAdd
  by_cases h : l.contains t
  · rw [if_pos h]
    have ht : t ∈ l := by simpa using h
    constructor
    · exact fun hu => Or.inl hu
    · rintro (hu | rfl) <;> [exact hu; exact ht]
  · rw [if_neg h]
    simp

theorem mem_addTags (ts : List String) (l : List String) (t : String) :
    t ∈ addTags l ts ↔ t ∈ l ∨ t ∈ ts := by
  induction ts generalizing l with
  | nil => simp [addTags]
  | cons u us ih =>
    rw [addTags, ih, mem_jsSetAdd]
    simp [or_assoc]

theorem loadManifests_snd_mem (env : String → ManifestFetch) (sources : List String)
    (ts : List String) (t : String) :
    t ∈ (loadManifests env sources ts).2 ↔
      t ∈ ts ∨ ∃ m ∈ (loadManifests env sources ts).1, t ∈ pkgTags m := by
  induction sources generalizing ts with
  | nil => simp [loadManifests]
  | cons s ss ih =>
    simp only [loadManifests, loadManifest]
    cases env (manifestUrl s) with
    | ok m =>
      simp only [ih, mem_addTags, loadManifests_fst, List.mem_cons]
      constructor
      · rintro ((h | h) | ⟨m', hm', ht⟩)
        · exact Or.inl h
        · exact Or.inr ⟨m, Or.inl rfl, h⟩
        · exact Or.inr ⟨m', Or.inr hm', ht⟩
      · rintro (h | ⟨m', (rfl | hm'), ht⟩)
        · exact Or.inl (Or.inl h)
        · exact Or.inl (Or.inr ht)
        · exact Or.inr ⟨m', hm', ht⟩
    | netFail =>
      simpa using ih ts
    | badJson =>
      simpa using ih ts

theorem loadManifests_snd_mono (env : String → ManifestFetch) (sources : List String)
    (ts : List String) (t : String) (h : t ∈ ts) :
    t ∈ (loadManifests env sources ts).2 :=
  (loadManifests_snd_mem env sources ts t).mpr (Or.inl h)

/-! ## Lemmas: sorting -/

theorem sortStrings_perm (l : List String) : (sortStrings l).Perm l :=
  List.mergeSort_perm l _

theorem sortStrings_mem (l : List String) (t : String) :
    t ∈ sortStrings l ↔ t ∈ l :=
  (sortStrings_perm l).mem_iff

theorem sortStrings_sorted (l : List String) :
    (sortStrings l).Sorted (· ≤ ·) := by
  have h := @List.sorted_mergeSort String (fun a b : String => decide (a ≤ b))
    (fun a b c hab hbc => by
      simp only [decide_eq_true_eq] at *
      exact le_trans hab hbc)
    (fun a b => by
      simp only [Bool.or_eq_true, decide_eq_true_eq]
      exact le_total a b)
    l
  exact h.imp (fun hab => by simpa using hab)

/-! ## Lemmas: the filter engine -/

theorem jsToLower_eq_empty_iff (s : String) : jsToLower s = "" ↔ s = "" := by
  unfold jsToLower
  constructor
  · intro h
    have hd : s.data.map jsLowerChar = [] := congrArg String.data h
    rcases s with ⟨l⟩
    simp only [List.map_eq_nil_iff] at hd
    exact hd ▸ rfl
  · rintro rfl
    rfl

/-- The claim-side match predicate: the query is empty or a case-insensitive
substring of the name, display name, description or author, and the selected
tag set is empty or meets the package's tags. -/
def claimMatch (query : String) (selectedTags : List String) (p : RawManifest) : Bool :=
  (decide (query = "") || lcIncludes p.name (jsToLower query) ||
     lcIncludes (resolvedDisplayName p) (jsToLower query) ||
     lcIncludes p.description (jsToLower query) ||
     lcIncludes ((filterAuthorName p.author).getD "") (jsToLower query)) &&
  (selectedTags.isEmpty || (pkgTags p).any (fun t => selectedTags.contains t))

theorem pkgMatch_eq (query : String) (sel : List String) (p : RawManifest)
    (h : (filterAuthorName p.author).isSome) :
    pkgMatch (jsToLower query) sel p = some (claimMatch query sel p) := by
  obtain ⟨a, ha⟩ := Option.isSome_iff_exists.mp h
  by_cases hq : query = ""
  · subst hq
    simp [pkgMatch, matchesSearch, claimMatch, matchesTags,
      show jsToLower "" = "" from rfl]
  · have hql : ¬jsToLower query = "" := fun hl => hq ((jsToLower_eq_empty_iff query).mp hl)
    unfold pkgMatch matchesSearch claimMatch matchesTags
    rw [if_neg hql]
    simp only [hq, decide_False, Bool.false_or]
    by_cases h1 : lcIncludes p.name (jsToLower query)
    · simp [h1]
    · simp only [h1, if_false, Bool.false_or]
      by_cases h2 : lcIncludes (resolvedDisplayName p) (jsToLower query)
      · simp [h2]
      · simp only [h2, if_false, Bool.false_or]
        by_cases h3 : lcIncludes p.description (jsToLower query)
        · simp [h3]
        · simp [h3, ha]

theorem filterPkgs_eq (query : String) (sel : List String) (pkgs : List RawManifest)
    (h : ∀ p ∈ pkgs, (filterAuthorName p.author).isSome) :
    filterPkgs (jsToLower query) sel pkgs = some (pkgs.filter (claimMatch query sel)) := by
  induction pkgs with
  | nil => rfl
  | cons p ps ih =>
    rw [filterPkgs, pkgMatch_eq query sel p (h p (List.mem_cons_self p ps)),
      ih (fun q hq => h q (List.mem_cons_of_mem p hq)), List.filter_cons]

theorem applyFilters_eq (pkgs : List RawManifest) (query : String) (sel : List String)
    (h : ∀ p ∈ pkgs, (filterAuthorName p.author).isSome) :
    applyFilters pkgs query sel = some (pkgs.filter (claimMatch query sel)) :=
  filterPkgs_eq query sel pkgs h

theorem applyFilters_all (pkgs : List RawManifest) :
    applyFilters pkgs "" [] = some pkgs := by
  unfold applyFilters
  induction pkgs with
  | nil => rfl
  | cons p ps ih =>
    have hm : pkgMatch (jsToLower "") [] p = some true := rfl
    rw [filterPkgs, hm, ih]
    rfl

theorem matchesTags_congr (sel₁ sel₂ : List String)
    (hc : ∀ t, sel₁.contains t = sel₂.contains t)
    (he : sel₁.isEmpty = sel₂.isEmpty) (p : RawManifest) :
    matchesTags sel₁ p = matchesTags sel₂ p := by
  unfold matchesTags
  rw [he]
  congr 1
  exact congrArg _ (funext hc)

theorem filterPkgs_sel_congr (term : String) (sel₁ sel₂ : List String)
    (hc : ∀ t, sel₁.contains t = sel₂.contains t)
    (he : sel₁.isEmpty = sel₂.isEmpty) (pkgs : List RawManifest) :
    filterPkgs term sel₁ pkgs = filterPkgs term sel₂ pkgs := by
  induction pkgs with
  | nil => rfl
  | cons p ps ih =>
    rw [filterPkgs, filterPkgs, ih]
    unfold pkgMatch
    rw [matchesTags_congr sel₁ sel₂ hc he p]

theorem applyFilters_sel_congr (pkgs : List RawManifest) (query : String)
    (sel₁ sel₂ : List String) (hc : ∀ t, sel₁.contains t = sel₂.contains t)
    (he : sel₁.isEmpty = sel₂.isEmpty) :
    applyFilters pkgs query sel₁ = applyFilters pkgs query sel₂ :=
  filterPkgs_sel_congr _ sel₁ sel₂ hc he pkgs

/-! ## Lemmas: split and join -/

theorem map_self_of_fixed {α : Type} (f : α → α) (l : List α)
    (h : ∀ t ∈ l, f t = t) : l.map f = l := by
  induction l with
  | nil => rfl
  | cons a l ih =>
    rw [List.map_cons, h a (List.mem_cons_self a l),
      ih (fun t ht => h t (List.mem_cons_of_mem a ht))]

theorem splitChars_no_sep (sep : Char) (l : List Char) (acc : List Char)
    (h : sep ∉ l) : splitChars sep l acc = [acc.reverse ++ l] := by
  induction l generalizing acc with
  | nil => simp [splitChars]
  | cons c cs ih =>
    rw [splitChars, if_neg (fun hc : c = sep => h (hc ▸ List.mem_cons_self c cs)),
      ih _ (fun hm => h (List.mem_cons_of_mem c hm))]
    simp

theorem splitChars_append (sep : Char) (l rest acc : List Char) (h : sep ∉ l) :
    splitChars sep (l ++ sep :: rest) acc =
      (acc.reverse ++ l) :: splitChars sep rest [] := by
  induction l generalizing acc with
  | nil => simp [splitChars]
  | cons c cs ih =>
    rw [List.cons_append, splitChars,
      if_neg (fun hc : c = sep => h (hc ▸ List.mem_cons_self c cs)),
      ih _ (fun hm => h (List.mem_cons_of_mem c hm))]
    simp

theorem splitChars_joinChars (sep : Char) (ls : List (List Char)) (h0 : ls ≠ [])
    (h : ∀ l ∈ ls, sep ∉ l) :
    splitChars sep (joinChars sep ls) [] = ls := by
  induction ls with
  | nil => exact absurd rfl h0
  | cons l ls ih =>
    cases ls with
    | nil =>
      rw [joinChars, splitChars_no_sep sep l [] (h l (List.mem_cons_self l []))]
      simp
    | cons l' ls' =>
      rw [joinChars, splitChars_append sep l _ [] (h l (List.mem_cons_self l _)),
        ih (by simp) (fun x hx => h x (List.mem_cons_of_mem l hx))]
      simp

theorem map_mk_map_data (ls : List String) :
    (ls.map String.data).map String.mk = ls := by
  induction ls with
  | nil => rfl
  | cons s l ih => rw [List.map_cons, List.map_cons, ih]

theorem jsSplit_jsJoin (ls : List String) (h0 : ls ≠ [])
    (h : ∀ s ∈ ls, ',' ∉ s.data) :
    jsSplit (jsJoin ls ',') ',' = ls := by
  unfold jsSplit jsJoin
  have hd : (String.mk (joinChars ',' (ls.map String.data))).data =
      joinChars ',' (ls.map String.data) := rfl
  rw [hd, splitChars_joinChars ',' (ls.map String.data)
    (fun hm => h0 (List.map_eq_nil_iff.mp hm))
    (fun l hl => by
      obtain ⟨s, hs, rfl⟩ := List.mem_map.mp hl
      exact h s hs)]
  exact map_mk_map_data ls

theorem jsJoin_ne_empty (ls : List String) (h0 : ls ≠ [])
    (h : ∀ s ∈ ls, s ≠ "") : jsJoin ls ',' ≠ "" := by
  unfold jsJoin
  intro hcon
  have hd : joinChars ',' (ls.map String.data) = [] := congrArg String.data hcon
  cases ls with
  | nil => exact h0 rfl
  | cons s ls' =>
    cases ls' with
    | nil =>
      rw [List.map_cons, List.map_nil, joinChars] at hd
      apply h s (List.mem_cons_self s [])
      rcases s with ⟨l⟩
      have hl : l = [] := hd
      rw [hl]
    | cons s' ls'' =>
      rw [List.map_cons, List.map_cons, joinChars] at hd
      simp at hd

/-! ## Lemmas: the URL codec -/

theorem decodeTags_roundtrip (allTags : List String) (tags : List String)
    (h0 : tags ≠ [])
    (h : ∀ t ∈ tags, allTags.contains t = true ∧ jsTrim t = t ∧ t ≠ "" ∧ ',' ∉ t.data) :
    decodeTags allTags (jsJoin (sortStrings tags) ',') = sortStrings tags := by
  have hmem : ∀ t ∈ sortStrings tags, allTags.contains t = true ∧ jsTrim t = t ∧
      t ≠ "" ∧ ',' ∉ t.data :=
    fun t ht => h t ((sortStrings_mem tags t).mp ht)
  have hs0 : sortStrings tags ≠ [] := by
    intro hcon
    apply h0
    have hlen := (sortStrings_perm tags).length_eq
    rw [hcon] at hlen
    exact List.length_eq_zero.mp hlen.symm
  unfold decodeTags
  rw [jsSplit_jsJoin (sortStrings tags) hs0 (fun s hs => (hmem s hs).2.2.2)]
  rw [map_self_of_fixed jsTrim _ (fun t ht => (hmem t ht).2.1)]
  have hinner : List.filter (fun t => t ≠ "") (sortStrings tags) = sortStrings tags :=
    List.filter_eq_self.mpr (fun t ht => by simpa using (hmem t ht).2.2.1)
  rw [hinner]
  exact List.filter_eq_self.mpr (fun t ht => (hmem t ht).1)

theorem contains_eq_of_perm (l₁ l₂ : List String) (h : l₁.Perm l₂) (t : String) :
    l₁.contains t = l₂.contains t := by
  by_cases hm : t ∈ l₂
  · simp [hm, h.mem_iff.mpr hm]
  · have hm1 : t ∉ l₁ := fun hc => hm (h.mem_iff.mp hc)
    simp [hm, hm1]

theorem isEmpty_eq_of_perm (l₁ l₂ : List String) (h : l₁.Perm l₂) :
    l₁.isEmpty = l₂.isEmpty := by
  have hlen := h.length_eq
  rcases l₁ with _ | ⟨a, l⟩ <;> rcases l₂ with _ | ⟨b, m⟩ <;> simp_all

theorem sortStrings_ne_nil (l : List String) (h : l ≠ []) : sortStrings l ≠ [] := by
  intro hc
  apply h
  have hlen := (sortStrings_perm l).length_eq
  rw [hc] at hlen
  exact List.length_eq_zero.mp hlen.symm

theorem loadFromURL_params_empty (pkgs : List RawManifest) (allTags : List String) :
    loadFromURL pkgs allTags ⟨[], ""⟩ = some pkgs := by
  simp [loadFromURL, paramGet, jsOrStr, strTruthy]

theorem loadFromURL_params_tags_only (pkgs : List RawManifest) (allTags : List String)
    (w : String) (hw : w ≠ "") :
    loadFromURL pkgs allTags ⟨[("tags", w)], ""⟩ =
      applyFilters pkgs "" (decodeTags allTags w) := by
  simp [loadFromURL, paramGet, jsOrStr, strTruthy, hw]

theorem loadFromURL_params_search_only (pkgs : List RawManifest) (allTags : List String)
    (q : String) (hq : q ≠ "") :
    loadFromURL pkgs allTags ⟨[("search", q)], ""⟩ = applyFilters pkgs q [] := by
  simp [loadFromURL, paramGet, jsOrStr, strTruthy, hq]

theorem loadFromURL_params_both (pkgs : List RawManifest) (allTags : List String)
    (q w : String) (hq : q ≠ "") (hw : w ≠ "") :
    loadFromURL pkgs allTags ⟨[("search", q), ("tags", w)], ""⟩ =
      applyFilters pkgs q (decodeTags allTags w) := by
  simp [loadFromURL, paramGet, jsOrStr, strTruthy, hq, hw]

theorem loadFromURL_encoded (pkgs : List RawManifest) (allTags : List String)
    (q : String) (tags : List String)
    (hq : jsTrim q = q)
    (ht : ∀ t ∈ tags, allTags.contains t = true ∧ jsTrim t = t ∧ t ≠ "" ∧ ',' ∉ t.data) :
    loadFromURL pkgs allTags (encodedUrl q tags) = applyFilters pkgs q tags := by
  have hcongr : applyFilters pkgs q (sortStrings tags) = applyFilters pkgs q tags :=
    applyFilters_sel_congr pkgs q _ _
      (contains_eq_of_perm _ _ (sortStrings_perm tags))
      (isEmpty_eq_of_perm _ _ (sortStrings_perm tags))
  by_cases ht0 : tags = []
  · subst ht0
    by_cases hq0 : q = ""
    · subst hq0
      have he : encodedUrl "" [] = ⟨[], ""⟩ := by
        simp [encodedUrl, updateURL, show jsTrim "" = "" from rfl]
      rw [he, loadFromURL_params_empty, applyFilters_all]
    · have he : encodedUrl q [] = ⟨[("search", q)], ""⟩ := by
        simp [encodedUrl, updateURL, hq, hq0]
      rw [he, loadFromURL_params_search_only pkgs allTags q hq0]
  · have hw : jsJoin (sortStrings tags) ',' ≠ "" :=
      jsJoin_ne_empty _ (sortStrings_ne_nil tags ht0)
        (fun s hs => (ht s ((sortStrings_mem tags s).mp hs)).2.2.1)
    by_cases hq0 : q = ""
    · subst hq0
      have he : encodedUrl "" tags = ⟨[("tags", jsJoin (sortStrings tags) ',')], ""⟩ := by
        simp [encodedUrl, updateURL, show jsTrim "" = "" from rfl, ht0]
      rw [he, loadFromURL_params_tags_only pkgs allTags _ hw,
        decodeTags_roundtrip allTags tags ht0 ht, hcongr]
    · have he : encodedUrl q tags =
          ⟨[("search", q), ("tags", jsJoin (sortStrings tags) ',')], ""⟩ := by
        simp [encodedUrl, updateURL, hq, hq0, ht0]
      rw [he, loadFromURL_params_both pkgs allTags q _ hq0 hw,
        decodeTags_roundtrip allTags tags ht0 ht, hcongr]

/-! ## Lemmas: fragment lookup -/

theorem length_filter_slug_le_one (h : String) (pkgs : List RawManifest)
    (hnd : (pkgs.map (fun p => slug p.name)).Nodup) :
    (pkgs.filter (fun p => slug p.name == h)).length ≤ 1 := by
  induction pkgs with
  | nil => simp
  | cons p ps ih =>
    rw [List.map_cons, List.nodup_cons] at hnd
    rw [List.filter_cons]
    by_cases hp : slug p.name == h
    · rw [if_pos hp]
      have hnone : ∀ x ∈ ps, ¬(slug x.name == h) = true := by
        intro x hx hfx
        apply hnd.1
        have hxh : slug x.name = h := by simpa using hfx
        have hph : slug p.name = h := by simpa using hp
        rw [hph, ← hxh]
        exact List.mem_map.mpr ⟨x, hx, rfl⟩
      rw [List.filter_eq_nil_iff.mpr hnone]
      simp
    · rw [if_neg hp]
      exact ih hnd.2

/-! ## Lemmas: the download counter -/

theorem cacheLookup_append_self (cache : DlCache) (url : String) (v : Nat)
    (h : cacheLookup cache url = none) :
    cacheLookup (cache ++ [(url, v)]) url = some v := by
  induction cache with
  | nil => simp [cacheLookup]
  | cons kv rest ih =>
    unfold cacheLookup at *
    rw [List.cons_append, List.find?_cons] at *
    cases hk : (kv.1 == url) with
    | true =>
      simp only [hk] at h
      simp at h
    | false =>
      simp only [hk] at h ⊢
      exact ih h

/-- The claim-side total: the sum of the `download_count` fields over all
assets of all releases. -/
def claimTotal (releases : List Release) : Nat :=
  (((releases.map (fun r => r.assets.getD [])).flatten).map
    (fun a => a.download_count.getD 0)).sum

theorem totalDownloads_eq_claimTotal (releases : List Release) :
    totalDownloads releases = claimTotal releases := by
  induction releases with
  | nil => rfl
  | cons r rs ih =>
    unfold totalDownloads claimTotal at *
    rw [List.map_cons, List.sum_cons, List.map_cons, List.flatten_cons,
      List.map_append, List.sum_append, ih]
    congr 1
    unfold releaseTotal assetCount
    cases r.assets <;> rfl

/-! ## Lemmas: the binary64 quotient and `toFixed(1)` -/

theorem log2Fuel_bounds (fuel : Nat) : ∀ n : Nat, n ≠ 0 → n ≤ fuel →
    2 ^ log2Fuel fuel n ≤ n ∧ n < 2 ^ (log2Fuel fuel n + 1) := by
  induction fuel with
  | zero => intro n h0 hle; omega
  | succ f ih =>
    intro n h0 hle
    rw [log2Fuel]
    by_cases h2 : 2 ≤ n
    · have hn2 : n / 2 ≠ 0 := by omega
      have hle2 : n / 2 ≤ f := by omega
      obtain ⟨hl, hr⟩ := ih (n / 2) hn2 hle2
      rw [if_pos h2]
      have e1 : 2 ^ (log2Fuel f (n / 2) + 1) = 2 ^ log2Fuel f (n / 2) * 2 :=
        pow_succ 2 _
      have e2 : 2 ^ (log2Fuel f (n / 2) + 1 + 1) = 2 ^ (log2Fuel f (n / 2) + 1) * 2 :=
        pow_succ 2 _
      constructor
      · omega
      · omega
    · rw [if_neg h2]
      constructor
      · simpa using Nat.one_le_iff_ne_zero.mpr h0
      · simpa using (by omega : n < 2)

theorem natLog2_bounds (n : Nat) (h0 : n ≠ 0) :
    2 ^ natLog2 n ≤ n ∧ n < 2 ^ (natLog2 n + 1) :=
  log2Fuel_bounds n n h0 (le_refl n)

theorem natLog2_le (n k : Nat) (h0 : n ≠ 0) (h : n < 2 ^ (k + 1)) :
    natLog2 n ≤ k := by
  by_contra hc
  have hk : k + 1 ≤ natLog2 n := by omega
  have h1 := (natLog2_bounds n h0).1
  have h2 : (2 : Nat) ^ (k + 1) ≤ 2 ^ natLog2 n :=
    Nat.pow_le_pow_right (by omega) hk
  omega

theorem rne_mul_bound (A d : Nat) (hd : 0 < d) :
    -(d : ℤ) ≤ 2 * ((roundNearestEven A d : ℤ) * d) - 2 * A ∧
    2 * ((roundNearestEven A d : ℤ) * d) - 2 * A ≤ d := by
  simp only [roundNearestEven]
  generalize hq : A / d = q
  generalize hr : A % d = r
  have hdm : d * q + r = A := by rw [← hq, ← hr]; exact Nat.div_add_mod A d
  have hmod : r < d := by rw [← hr]; exact Nat.mod_lt A hd
  have hdmZ : (d : ℤ) * q + r = A := by exact_mod_cast hdm
  have hmodZ : (r : ℤ) < d := by exact_mod_cast hmod
  split_ifs with h1 h2 h3
  · have h1Z : (d : ℤ) < 2 * r := by exact_mod_cast h1
    constructor <;> (push_cast; nlinarith [hdmZ, hmodZ, h1Z])
  · have h2Z : 2 * (r : ℤ) < d := by exact_mod_cast h2
    constructor <;> (push_cast; nlinarith [hdmZ, hmodZ, h2Z])
  · have htZ : 2 * (r : ℤ) = d := by
      have ht : 2 * r = d := by omega
      exact_mod_cast ht
    constructor <;> (push_cast; nlinarith [hdmZ, hmodZ, htZ])
  · have htZ : 2 * (r : ℤ) = d := by
      have ht : 2 * r = d := by omega
      exact_mod_cast ht
    constructor <;> (push_cast; nlinarith [hdmZ, hmodZ, htZ])

theorem divDoubleNum_eq_of_le (c d : Nat) (hd : 0 < d) (hdc : d ≤ c)
    (he : natLog2 (c / d) ≤ 52) :
    divDoubleNum c d =
      roundNearestEven (c * 2 ^ (52 - natLog2 (c / d))) d * 2 ^ natLog2 (c / d) := by
  simp only [divDoubleNum]
  rw [if_pos he]

set_option maxHeartbeats 1600000 in
theorem tenths_agree (c d : Nat) (hd : 0 < d) (hdc : d ≤ c)
    (he : natLog2 (c / d) ≤ 52)
    (hb : 10 * d * 2 ^ natLog2 (c / d) < 2 ^ 52)
    (hnt : (20 * c + d) % (2 * d) ≠ 0) :
    (20 * divDoubleNum c d + 2 ^ 52) / 2 ^ 53 = (20 * c + d) / (2 * d) := by
  set e := natLog2 (c / d) with he_def
  set A := c * 2 ^ (52 - e) with hA_def
  set m := roundNearestEven A d with hm_def
  have hN : divDoubleNum c d = m * 2 ^ e := divDoubleNum_eq_of_le c d hd hdc he
  set N := divDoubleNum c d with hN_def
  obtain ⟨hK1, hK2⟩ := rne_mul_bound A d hd
  have hpow : (2 : ℤ) ^ (52 - e) * 2 ^ e = 2 ^ 52 := by
    rw [← pow_add]
    congr 1
    omega
  have hAe : (A : ℤ) * 2 ^ e = (c : ℤ) * 2 ^ 52 := by
    have hAc : (A : ℤ) = (c : ℤ) * 2 ^ (52 - e) := by
      rw [hA_def]
      push_cast
      ring
    rw [hAc, mul_assoc, hpow]
  have hNe : (N : ℤ) = (m : ℤ) * 2 ^ e := by exact_mod_cast hN
  have hpe : (0 : ℤ) ≤ 2 ^ e := by positivity
  have key1 : 2 * ((N : ℤ) * d) - 2 * (c * 2 ^ 52) ≤ d * 2 ^ e := by
    have h := mul_le_mul_of_nonneg_right hK1 hpe
    rw [hNe]
    nlinarith [hAe]
  have key2 : -((d : ℤ) * 2 ^ e) ≤ 2 * ((N : ℤ) * d) - 2 * (c * 2 ^ 52) := by
    have h := mul_le_mul_of_nonneg_right hK2 hpe
    rw [hNe]
    nlinarith [hAe]
  set n := (20 * c + d) / (2 * d) with hn_def
  set r := (20 * c + d) % (2 * d) with hr_def
  have hdm : 2 * d * n + r = 20 * c + d := by
    rw [hn_def, hr_def]
    exact Nat.div_add_mod (20 * c + d) (2 * d)
  have hrlt : r < 2 * d := by
    rw [hr_def]
    exact Nat.mod_lt _ (by omega)
  have hr1 : 1 ≤ r := by omega
  have hdmZ : 2 * (d : ℤ) * n + r = 20 * c + d := by exact_mod_cast hdm
  have hrltZ : (r : ℤ) < 2 * d := by exact_mod_cast hrlt
  have hr1Z : (1 : ℤ) ≤ r := by exact_mod_cast hr1
  have hbZ : 10 * (d : ℤ) * 2 ^ e < 2 ^ 52 := by exact_mod_cast hb
  have hdZ : (0 : ℤ) < d := by exact_mod_cast hd
  have hlo : n * 2 ^ 53 ≤ 20 * N + 2 ^ 52 := by
    have hZ : (n : ℤ) * 2 ^ 53 ≤ 20 * N + 2 ^ 52 := by
      have hmul : (d : ℤ) * ((n : ℤ) * 2 ^ 53) ≤ (d : ℤ) * (20 * N + 2 ^ 52) := by
        nlinarith [key2, hdmZ, hbZ, hr1Z]
      exact le_of_mul_le_mul_left hmul hdZ
    exact_mod_cast hZ
  have hhi : 20 * N + 2 ^ 52 < (n + 1) * 2 ^ 53 := by
    have hZ : (20 : ℤ) * N + 2 ^ 52 < ((n : ℤ) + 1) * 2 ^ 53 := by
      have hmul : (d : ℤ) * ((20 : ℤ) * N + 2 ^ 52) < (d : ℤ) * (((n : ℤ) + 1) * 2 ^ 53) := by
        nlinarith [key1, hdmZ, hbZ, hrltZ]
      exact lt_of_mul_lt_mul_left hmul (le_of_lt hdZ)
    exact_mod_cast hZ
  exact Nat.div_eq_of_lt_le hlo hhi

theorem formatCount_K_agree (c : Nat) (h1 : 1000 ≤ c) (h2 : c < 1000000)
    (hnt : c % 100 ≠ 50) :
    (20 * divDoubleNum c 1000 + 2 ^ 52) / 2 ^ 53 = (20 * c + 1000) / (2 * 1000) := by
  have he9 : natLog2 (c / 1000) ≤ 9 := natLog2_le _ 9 (by omega) (by omega)
  have he : natLog2 (c / 1000) ≤ 52 := le_trans he9 (by norm_num)
  have hb : 10 * 1000 * 2 ^ natLog2 (c / 1000) < 2 ^ 52 := by
    calc 10 * 1000 * 2 ^ natLog2 (c / 1000) ≤ 10 * 1000 * 2 ^ 9 :=
          Nat.mul_le_mul_left _ (Nat.pow_le_pow_right (by omega) he9)
      _ < 2 ^ 52 := by norm_num
  have hnt' : (20 * c + 1000) % (2 * 1000) ≠ 0 := by omega
  exact tenths_agree c 1000 (by omega) h1 he hb hnt'

theorem formatCount_M_agree (c : Nat) (h1 : 1000000 ≤ c) (h2 : c ≤ 100000000000000)
    (hnt : c % 100000 ≠ 50000) :
    (20 * divDoubleNum c 1000000 + 2 ^ 52) / 2 ^ 53 =
      (20 * c + 1000000) / (2 * 1000000) := by
  have he26 : natLog2 (c / 1000000) ≤ 26 := natLog2_le _ 26 (by omega) (by omega)
  have he : natLog2 (c / 1000000) ≤ 52 := le_trans he26 (by norm_num)
  have hb : 10 * 1000000 * 2 ^ natLog2 (c / 1000000) < 2 ^ 52 := by
    calc 10 * 1000000 * 2 ^ natLog2 (c / 1000000) ≤ 10 * 1000000 * 2 ^ 26 :=
          Nat.mul_le_mul_left _ (Nat.pow_le_pow_right (by omega) he26)
      _ < 2 ^ 52 := by norm_num
  have hnt' : (20 * c + 1000000) % (2 * 1000000) ≠ 0 := by omega
  exact tenths_agree c 1000000 (by omega) h1 he hb hnt'

/-! ## Claim-side definitions for `formatCount` -/

/-- Rounding `num / den` half-up to tenths: the exact quotient "rounded to 1
decimal" in the claim's plain reading. -/
def tenthsHalfUp (num den : Nat) : Nat := (20 * num + den) / (2 * den)

/-- One-decimal rendering of a tenths count. -/
def renderTenths (n : Nat) : String := Nat.repr (n / 10) ++ "." ++ Nat.repr (n % 10)

/-- The claim-side `formatCount`: the value divided by `1e6` (resp. `1e3`)
rounded to 1 decimal in exact arithmetic, with the `M`/`K` suffix, else the
literal integer string. -/
def specFormatCount (count : Nat) : String :=
  if 1000000 ≤ count then renderTenths (tenthsHalfUp count 1000000) ++ "M"
  else if 1000 ≤ count then renderTenths (tenthsHalfUp count 1000) ++ "K"
  else Nat.repr count

theorem formatCount_eq_spec_K (c : Nat) (h1 : 1000 ≤ c) (h2 : c < 1000000)
    (hnt : c % 100 ≠ 50) : formatCount c = specFormatCount c := by
  have hK := formatCount_K_agree c h1 h2 hnt
  simp only [formatCount, specFormatCount, toFixed1, renderTenths, tenthsHalfUp]
  rw [if_neg (show ¬1000000 ≤ c by omega), if_pos h1,
    if_neg (show ¬1000000 ≤ c by omega), if_pos h1]
  rw [show (2 : Nat) * 2 ^ 52 = 2 ^ 53 by norm_num]
  rw [hK]

theorem formatCount_eq_spec_M (c : Nat) (h1 : 1000000 ≤ c) (h2 : c ≤ 100000000000000)
    (hnt : c % 100000 ≠ 50000) : formatCount c = specFormatCount c := by
  have hM := formatCount_M_agree c h1 h2 hnt
  simp only [formatCount, specFormatCount, toFixed1, renderTenths, tenthsHalfUp]
  rw [if_pos h1, if_pos h1]
  rw [show (2 : Nat) * 2 ^ 52 = 2 ^ 53 by norm_num]
  rw [hM]

/-! ## Concrete fixtures for witnesses and counterexamples -/

/-- Five repository sources of which the second and fourth fail to fetch. -/
def envC1 : String → ManifestFetch := fun u =>
  if u = manifestUrl "s2" ∨ u = manifestUrl "s4" then ManifestFetch.netFail
  else if u = manifestUrl "s1" then ManifestFetch.ok { name := "p1", keywords := some ["x"] }
  else if u = manifestUrl "s3" then ManifestFetch.ok { name := "p3" }
  else if u = manifestUrl "s5" then ManifestFetch.ok { name := "p5" }
  else ManifestFetch.badJson

/-- A network on which every count fetch fails. -/
def envAllFail : String → FetchOutcome := fun _ => FetchOutcome.transportError

/-- A network returning the spec's example release list for every URL. -/
def envReleases : String → FetchOutcome := fun _ =>
  FetchOutcome.ok
    [{ assets := some [{ download_count := some 3 }, { download_count := some 2 }] },
     { assets := some [] }]

/-! ## Claims -/

/-- C1: for every ordered sequence of repository sources, `loadManifests`
returns exactly the packages of the sources whose fetch, parse and
normalization succeeded, in the relative order of the source sequence; a
failing source contributes no package and neither aborts nor affects any
other source, and no exception terminates the batch (every per-source
promise settles). -/
theorem loadManifests_partial_failure_isolation
    (env : String → ManifestFetch) (sources pre post : List String) (url : String) :
    loadPackages env sources = sources.filterMap (loadManifestPkg env) ∧
    (loadManifestPkg env url = none →
      loadPackages env (pre ++ url :: post) = loadPackages env (pre ++ post)) ∧
    (∀ m, loadManifestPkg env url = some m →
      loadPackages env (pre ++ url :: post) =
        loadPackages env pre ++ m :: loadPackages env post) := by
  refine ⟨loadPackages_eq env sources, ?_, ?_⟩
  · intro h
    rw [loadPackages_eq, loadPackages_eq, List.filterMap_append, List.filterMap_append,
      List.filterMap_cons, h]
  · intro m h
    rw [loadPackages_eq, loadPackages_eq, loadPackages_eq, List.filterMap_append,
      List.filterMap_cons, h]

theorem loadManifests_partial_failure_isolation_witness :
    loadManifestPkg envC1 "s2" = none ∧
    loadPackages envC1 (["s1"] ++ "s2" :: ["s3", "s4", "s5"]) =
      loadPackages envC1 (["s1"] ++ ["s3", "s4", "s5"]) ∧
    loadPackages envC1 ["s1", "s2", "s3", "s4", "s5"] =
      [{ name := "p1", keywords := some ["x"] }, { name := "p3" }, { name := "p5" }] :=
  ⟨by decide,
   (loadManifests_partial_failure_isolation envC1 [] ["s1"] ["s3", "s4", "s5"] "s2").2.1
     (by decide),
   by decide⟩

/-- C2 counterexample: the round-trip law fails as stated.  For the state
`{query := " ", tags := ∅}` the direct filter matches only packages whose
searched fields contain a space (here: none), while `updateURL` trims the
query away entirely, so decoding its URL shows every package. -/
theorem viewstate_roundtrip_counterexample :
    applyFilters [{ name := "x", description := "x" }] " " [] = some [] ∧
    loadFromURL [{ name := "x", description := "x" }] [] (encodedUrl " " []) =
      some [{ name := "x", description := "x" }] ∧
    loadFromURL [{ name := "x", description := "x" }] [] (encodedUrl " " []) ≠
      applyFilters [{ name := "x", description := "x" }] " " [] :=
  ⟨by decide, by decide, by decide⟩

/-- C2 (amended): for every view state whose query is trim-invariant and
whose selected tags are members of the tag index, trim-invariant, nonempty
and comma-free, decoding the URL produced by encoding the state
(`updateURL` then `loadFromURL`, no focus-only fragment) reproduces exactly
the filter outcome of applying the state directly; in particular tag-set
membership is preserved regardless of insertion order (tags are sorted and
comma-joined on encode, split, trimmed and filtered on decode). -/
theorem viewstate_roundtrip_amended (pkgs : List RawManifest) (allTags : List String)
    (query : String) (tags : List String)
    (hq : jsTrim query = query)
    (ht : ∀ t ∈ tags, allTags.contains t = true ∧ jsTrim t = t ∧ t ≠ "" ∧ ',' ∉ t.data) :
    loadFromURL pkgs allTags (encodedUrl query tags) = applyFilters pkgs query tags :=
  loadFromURL_encoded pkgs allTags query tags hq ht

theorem viewstate_roundtrip_amended_witness :
    (jsTrim "foo" = "foo" ∧
      ∀ t ∈ ["b", "a"], (["a", "b"] : List String).contains t = true ∧ jsTrim t = t ∧
        t ≠ "" ∧ ',' ∉ t.data) ∧
    loadFromURL [{ name := "foo pkg", description := "d", keywords := some ["a", "b"] }]
        ["a", "b"] (encodedUrl "foo" ["b", "a"]) =
      applyFilters [{ name := "foo pkg", description := "d", keywords := some ["a", "b"] }]
        "foo" ["b", "a"] :=
  ⟨⟨by decide, by decide⟩,
   viewstate_roundtrip_amended _ ["a", "b"] "foo" ["b", "a"] (by decide) (by decide)⟩

/-- C3 counterexample: the filter is not total on all package sequences.
For a package whose `author` is an object without a `name`, a non-matching
nonempty query reaches `authorName.toLowerCase()` on a non-string and the
whole `applyFilters` call throws instead of excluding the package. -/
theorem applyFilters_counterexample :
    applyFilters [{ name := "x", description := "d", author := .obj none }] "z" [] =
      none ∧
    applyFilters [{ name := "x", description := "d", author := .obj none }] "z" [] ≠
      some (List.filter (claimMatch "z" [])
        [{ name := "x", description := "d", author := .obj none }]) :=
  ⟨by decide, by decide⟩

/-- C3 (amended): for every package sequence in which each package's author
resolves to a string (author absent, a string, or an object with a nonempty
name — otherwise the filter throws), every query string and selected-tag
set, `applyFilters` returns exactly the packages satisfying: (query empty OR
query a case-insensitive substring of name, displayName, description or
author) AND (selected tags empty OR at least one selected tag held), and the
output is an order-preserving subsequence of the input. -/
theorem applyFilters_match_predicate (pkgs : List RawManifest) (query : String)
    (sel : List String) (h : ∀ p ∈ pkgs, (filterAuthorName p.author).isSome) :
    applyFilters pkgs query sel = some (pkgs.filter (claimMatch query sel)) ∧
    (pkgs.filter (claimMatch query sel)).Sublist pkgs :=
  ⟨applyFilters_eq pkgs query sel h, List.filter_sublist pkgs⟩

theorem applyFilters_match_predicate_witness :
    (∀ p ∈ [({ name := "Alpha", description := "first", keywords := some ["t"] } :
        RawManifest), { name := "Beta", description := "second" }],
      (filterAuthorName p.author).isSome) ∧
    (applyFilters [{ name := "Alpha", description := "first", keywords := some ["t"] },
        { name := "Beta", description := "second" }] "alp" [] =
      some (List.filter (claimMatch "alp" [])
        [{ name := "Alpha", description := "first", keywords := some ["t"] },
         { name := "Beta", description := "second" }]) ∧
      (List.filter (claimMatch "alp" [])
        [{ name := "Alpha", description := "first", keywords := some ["t"] },
         { name := "Beta", description := "second" }]).Sublist
        [{ name := "Alpha", description := "first", keywords := some ["t"] },
         { name := "Beta", description := "second" }]) :=
  ⟨by decide,
   applyFilters_match_predicate
     [{ name := "Alpha", description := "first", keywords := some ["t"] },
      { name := "Beta", description := "second" }] "alp" [] (by decide)⟩

/-- C4 counterexample: the claimed author fallback chain
(`author.name` over `author` (string) over `"Unknown"`) is false for an
author object with an absent or empty `name`: `pkg.author?.name` is falsy,
the object itself is truthy, so `pkg.author?.name || pkg.author || 'Unknown'`
yields the object, which the card template stringifies as
`"[object Object]"` — not the claimed `"Unknown"`. -/
theorem normalizeManifest_author_counterexample :
    (normalizeManifest { name := "n", author := .obj none }).authorName =
      "[object Object]" ∧
    (normalizeManifest { name := "n", author := .obj (some "") }).authorName =
      "[object Object]" ∧
    (normalizeManifest { name := "n", author := .obj none }).authorName ≠ "Unknown" :=
  ⟨by decide, by decide, by decide⟩

/-- C4 (amended): normalization never fails, and every absent optional field
receives its fallback: `displayName` falls back to `name`; the author
renders as `author.name` when that is a nonempty string, as `author` itself
when it is a nonempty string, and as `"Unknown"` when `author` is absent or
the empty string — but an author object with an absent or empty `name`
falls through to the object itself and renders as `"[object Object]"`, not
`"Unknown"`; `status` falls back to `"unknown"`; the tag list prefers
`keywords` over `tags` (empty list when both are absent); and a manifest
yields no package exactly when its fetch fails or its body is not valid
JSON. -/
theorem normalizeManifest_fallbacks (p : RawManifest) (env : String → ManifestFetch)
    (url : String) :
    (p.displayName = none → (normalizeManifest p).displayName = p.name) ∧
    (p.author = .absent → (normalizeManifest p).authorName = "Unknown") ∧
    (∀ n, p.author = .obj (some n) → n ≠ "" → (normalizeManifest p).authorName = n) ∧
    (∀ s, p.author = .str s → s ≠ "" → (normalizeManifest p).authorName = s) ∧
    (p.author = .str "" → (normalizeManifest p).authorName = "Unknown") ∧
    (p.author = .obj none → (normalizeManifest p).authorName = "[object Object]") ∧
    (p.author = .obj (some "") →
      (normalizeManifest p).authorName = "[object Object]") ∧
    (p.status = none → (normalizeManifest p).status = "unknown") ∧
    (∀ ks, p.keywords = some ks → (normalizeManifest p).tags = ks) ∧
    (p.keywords = none → ∀ ts, p.tags = some ts → (normalizeManifest p).tags = ts) ∧
    (p.keywords = none → p.tags = none → (normalizeManifest p).tags = []) ∧
    ((loadManifest env url []).1 = none ↔
      env (manifestUrl url) = .netFail ∨ env (manifestUrl url) = .badJson) := by
  refine ⟨?_, ?_, ?_, ?_, ?_, ?_, ?_, ?_, ?_, ?_, ?_, ?_⟩
  · intro h
    simp [normalizeManifest, resolvedDisplayName, h]
  · intro h
    simp [normalizeManifest, cardAuthorName, h]
  · intro n hn hne
    simp [normalizeManifest, cardAuthorName, hn, hne]
  · intro s hs hse
    simp [normalizeManifest, cardAuthorName, hs, hse]
  · intro h
    simp [normalizeManifest, cardAuthorName, h]
  · intro h
    simp [normalizeManifest, cardAuthorName, h]
  · intro h
    simp [normalizeManifest, cardAuthorName, h]
  · intro h
    simp [normalizeManifest, resolvedStatus, h]
  · intro ks h
    simp [normalizeManifest, pkgTags, h]
  · intro hk ts h
    simp [normalizeManifest, pkgTags, hk, h]
  · intro hk ht
    simp [normalizeManifest, pkgTags, hk, ht]
  · unfold loadManifest
    cases env (manifestUrl url) <;> simp

theorem normalizeManifest_fallbacks_witness :
    (normalizeManifest { name := "n" }).displayName = "n" ∧
    (normalizeManifest { name := "n" }).authorName = "Unknown" ∧
    (normalizeManifest { name := "n" }).status = "unknown" ∧
    (normalizeManifest { name := "n" }).tags = [] ∧
    (normalizeManifest { name := "n", author := .obj (some "Ada") }).authorName = "Ada" ∧
    (normalizeManifest { name := "n", author := .obj none }).authorName =
      "[object Object]" ∧
    (loadManifest (fun _ => ManifestFetch.badJson) "u" []).1 = none :=
  ⟨(normalizeManifest_fallbacks { name := "n" } (fun _ => .badJson) "u").1 rfl,
   (normalizeManifest_fallbacks { name := "n" } (fun _ => .badJson) "u").2.1 rfl,
   (normalizeManifest_fallbacks { name := "n" } (fun _ => .badJson)
     "u").2.2.2.2.2.2.2.1 rfl,
   (normalizeManifest_fallbacks { name := "n" } (fun _ => .badJson)
     "u").2.2.2.2.2.2.2.2.2.2.1 rfl rfl,
   (normalizeManifest_fallbacks { name := "n", author := .obj (some "Ada") }
     (fun _ => .badJson) "u").2.2.1 "Ada" rfl (by decide),
   (normalizeManifest_fallbacks { name := "n", author := .obj none }
     (fun _ => .badJson) "u").2.2.2.2.2.1 rfl,
   ((normalizeManifest_fallbacks { name := "n" } (fun _ => .badJson)
     "u").2.2.2.2.2.2.2.2.2.2.2).mpr (Or.inr rfl)⟩

/-- C5 counterexample: when the fetch fails the result is not cached, so two
calls with the same URL perform the underlying fetch twice — the claim's
unconditional "at most once" is false. -/
theorem fetchDownloadCount_twice_counterexample :
    (fetchTwice envAllFail "https://u").2.2 = 2 ∧
    ¬(fetchTwice envAllFail "https://u").2.2 ≤ 1 :=
  ⟨by decide, by decide⟩

/-- C5 (amended): for every URL whose fetch succeeds (ok status, valid
JSON), calling `fetchDownloadCount` twice with that URL performs the
underlying fetch exactly once (the second call is a cache hit) and both
calls return the same non-negative total; and once a value is cached for a
URL, any later call returns it without re-fetching, for the lifetime of the
process.  (Failed fetches cache nothing and are retried — see C10.) -/
theorem fetchDownloadCount_cached_amended (env : String → FetchOutcome) (url : String)
    (releases : List Release) (h : env url = FetchOutcome.ok releases) :
    (fetchTwice env url).1 = totalDownloads releases ∧
    (fetchTwice env url).2.1 = totalDownloads releases ∧
    (fetchTwice env url).2.2 = 1 ∧
    (∀ cache v, cacheLookup cache url = some v →
      fetchDownloadCount env cache url = (v, cache, false)) := by
  have h0 : cacheLookup [] url = none := rfl
  have h1 : fetchDownloadCount env [] url =
      (totalDownloads releases, [(url, totalDownloads releases)], true) := by
    unfold fetchDownloadCount
    rw [h0, h]
    simp
  have h2 : cacheLookup [(url, totalDownloads releases)] url =
      some (totalDownloads releases) := by
    simp [cacheLookup]
  have h3 : fetchDownloadCount env [(url, totalDownloads releases)] url =
      (totalDownloads releases, [(url, totalDownloads releases)], false) := by
    unfold fetchDownloadCount
    rw [h2]
  refine ⟨?_, ?_, ?_, ?_⟩
  · simp [fetchTwice, h1]
  · simp [fetchTwice, h1, h3]
  · simp [fetchTwice, h1, h3]
  · intro cache v hv
    unfold fetchDownloadCount
    rw [hv]

theorem fetchDownloadCount_cached_amended_witness :
    envReleases "https://u" =
      FetchOutcome.ok
        [{ assets := some [{ download_count := some 3 }, { download_count := some 2 }] },
         { assets := some [] }] ∧
    (fetchTwice envReleases "https://u").1 =
      totalDownloads
        [{ assets := some [{ download_count := some 3 }, { download_count := some 2 }] },
         { assets := some [] }] ∧
    (fetchTwice envReleases "https://u").2.2 = 1 :=
  ⟨rfl,
   (fetchDownloadCount_cached_amended envReleases "https://u" _ rfl).1,
   (fetchDownloadCount_cached_amended envReleases "https://u" _ rfl).2.2.1⟩

/-- C6 counterexample: the fragment filter can return more than one package.
Two distinct packages named `"A b"` and `"a-b"` share the slug `"a-b"`, so
the fragment-only URL `#a-b` yields both — the claim's "0 or 1 results" is
false. -/
theorem loadFromURL_fragment_counterexample :
    loadFromURL [{ name := "A b" }, { name := "a-b" }] [] ⟨[], "a-b"⟩ =
      some [{ name := "A b" }, { name := "a-b" }] ∧
    ¬((loadFromURL [{ name := "A b" }, { name := "a-b" }] [] ⟨[], "a-b"⟩).getD
        []).length ≤ 1 :=
  ⟨by decide, by decide⟩

/-- C6 (amended): for every loaded package set and every URL whose fragment
is present while no query parameters are present, `loadFromURL` sets the
filtered set to exactly the packages whose slug — the name lowercased with
every run of characters outside `[a-z0-9]` replaced by one `-` — equals the
fragment, bypassing query/tag filtering; when the packages' slugs are
pairwise distinct this yields 0 or 1 results; the package named
`"My Package 1"` has slug `"my-package-1"`. -/
theorem loadFromURL_fragment_amended (pkgs : List RawManifest) (allTags : List String)
    (frag : String) (hf : frag ≠ "") :
    loadFromURL pkgs allTags ⟨[], frag⟩ =
      some (pkgs.filter (fun p => slug p.name == frag)) ∧
    ((pkgs.map (fun p => slug p.name)).Nodup →
      (pkgs.filter (fun p => slug p.name == frag)).length ≤ 1) ∧
    slug "My Package 1" = "my-package-1" := by
  refine ⟨?_, fun hnd => length_filter_slug_le_one frag pkgs hnd, by decide⟩
  unfold loadFromURL
  rw [if_pos ⟨hf, rfl⟩]

theorem loadFromURL_fragment_amended_witness :
    ("my-package-1" ≠ "" ∧
      ((([{ name := "My Package 1" }] : List RawManifest)).map
        (fun p => slug p.name)).Nodup) ∧
    loadFromURL [{ name := "My Package 1" }] [] ⟨[], "my-package-1"⟩ =
      some (([{ name := "My Package 1" }] : List RawManifest).filter
        (fun p => slug p.name == "my-package-1")) ∧
    (([{ name := "My Package 1" }] : List RawManifest).filter
      (fun p => slug p.name == "my-package-1")).length ≤ 1 :=
  ⟨⟨by decide, by decide⟩,
   (loadFromURL_fragment_amended [{ name := "My Package 1" }] [] "my-package-1"
     (by decide)).1,
   (loadFromURL_fragment_amended [{ name := "My Package 1" }] [] "my-package-1"
     (by decide)).2.1 (by decide)⟩

/-- C7: after a full load the tag index contains exactly the union of the
tag lists of all successfully loaded packages and nothing from failed
sources; no batch operation removes an element from the index within a
session (it only grows); and the listing built for the filter panel is
sorted in default lexical order while preserving membership. -/
theorem tagIndex_union_sorted (env : String → ManifestFetch) (sources : List String)
    (baseTags : List String) (t : String) :
    (t ∈ (loadManifests env sources []).2 ↔
      ∃ m ∈ loadPackages env sources, t ∈ pkgTags m) ∧
    (t ∈ baseTags → t ∈ (loadManifests env sources baseTags).2) ∧
    (buildTagsList (loadManifests env sources []).2).Sorted (· ≤ ·) ∧
    (t ∈ buildTagsList (loadManifests env sources []).2 ↔
      t ∈ (loadManifests env sources []).2) := by
  refine ⟨?_, loadManifests_snd_mono env sources baseTags t, ?_, ?_⟩
  · have h := loadManifests_snd_mem env sources [] t
    simpa [loadPackages] using h
  · exact sortStrings_sorted _
  · exact sortStrings_mem _ t

theorem tagIndex_union_sorted_witness :
    "base" ∈ ["base"] ∧
    "base" ∈ (loadManifests envC1 ["s1"] ["base"]).2 ∧
    ("x" ∈ (loadManifests envC1 ["s1", "s2"] []).2 ↔
      ∃ m ∈ loadPackages envC1 ["s1", "s2"], "x" ∈ pkgTags m) :=
  ⟨by decide,
   (tagIndex_union_sorted envC1 ["s1"] ["base"] "base").2.1 (by decide),
   (tagIndex_union_sorted envC1 ["s1", "s2"] ["base"] "x").1⟩

set_option maxRecDepth 8192 in
/-- C8 counterexample: `formatCount` renders the binary64 quotient with
`toFixed(1)`, so at a decimal midpoint the result can differ from the exact
value rounded to 1 decimal: `1150 / 1000 = 1.15` exactly, yet
`formatCount 1150 = "1.1K"` while exact rounding gives `"1.2K"`. -/
theorem formatCount_counterexample :
    formatCount 1150 = "1.1K" ∧ specFormatCount 1150 = "1.2K" ∧
    formatCount 1150 ≠ specFormatCount 1150 :=
  ⟨by decide, by decide, by decide⟩

set_option maxRecDepth 8192 in
/-- C8 (amended): `formatCount` returns the literal integer string below
1000, and otherwise the binary64 quotient `count / 1e3` (suffix `K`) or
`count / 1e6` (suffix `M`) rendered by `toFixed(1)`.  Whenever the exact
quotient is not a midpoint between two tenths (`count % 100 ≠ 50` in the K
range; `count % 100000 ≠ 50000` in the M range up to `10^14`) this agrees
with the exact value rounded half-up to 1 decimal; at midpoints the result
follows the binary64 representation and may round down, e.g.
`formatCount 1150 = "1.1K"`.  In particular `formatCount 950 = "950"`,
`formatCount 1500 = "1.5K"` and `formatCount 2300000 = "2.3M"`. -/
theorem formatCount_amended (c : Nat) :
    (c < 1000 → formatCount c = Nat.repr c) ∧
    (1000 ≤ c → c < 1000000 → c % 100 ≠ 50 → formatCount c = specFormatCount c) ∧
    (1000000 ≤ c → c ≤ 100000000000000 → c % 100000 ≠ 50000 →
      formatCount c = specFormatCount c) ∧
    formatCount 950 = "950" ∧ formatCount 1500 = "1.5K" ∧
    formatCount 2300000 = "2.3M" ∧ formatCount 1150 = "1.1K" := by
  refine ⟨?_, formatCount_eq_spec_K c, formatCount_eq_spec_M c,
    by decide, by decide, by decide, by decide⟩
  intro h
  unfold formatCount
  rw [if_neg (by omega), if_neg (by omega)]

set_option maxRecDepth 8192 in
theorem formatCount_amended_witness :
    (1000 ≤ 1500 ∧ 1500 < 1000000 ∧ 1500 % 100 ≠ 50) ∧
    formatCount 1500 = specFormatCount 1500 :=
  ⟨by decide, (formatCount_amended 1500).2.1 (by decide) (by decide) (by decide)⟩

/-- C9: for every release-list response, `fetchDownloadCount` (on a cache
miss) resolves to the sum of the `download_count` fields over all assets of
all releases, a missing or non-array `assets` field and a missing
`download_count` contributing zero; the spec's example list resolves to 5. -/
theorem fetchDownloadCount_sums_releases (env : String → FetchOutcome) (url : String)
    (cache : DlCache) (releases : List Release)
    (h : env url = FetchOutcome.ok releases) (hc : cacheLookup cache url = none) :
    (fetchDownloadCount env cache url).1 = claimTotal releases ∧
    (fetchDownloadCount envReleases [] "u").1 = 5 := by
  constructor
  · unfold fetchDownloadCount
    rw [hc, h]
    exact totalDownloads_eq_claimTotal releases
  · decide

theorem fetchDownloadCount_sums_releases_witness :
    envReleases "u" =
      FetchOutcome.ok
        [{ assets := some [{ download_count := some 3 }, { download_count := some 2 }] },
         { assets := some [] }] ∧
    cacheLookup [] "u" = none ∧
    (fetchDownloadCount envReleases [] "u").1 =
      claimTotal
        [{ assets := some [{ download_count := some 3 }, { download_count := some 2 }] },
         { assets := some [] }] :=
  ⟨rfl, rfl, (fetchDownloadCount_sums_releases envReleases "u" [] _ rfl rfl).1⟩

/-- C10: for every URL whose count fetch fails (transport error, non-success
HTTP status, or JSON parse failure), `fetchDownloadCount` returns 0 without
inserting anything into the cache — only successfully computed totals are
cached — so a subsequent call with the same URL performs the underlying
fetch again instead of returning a cached failure. -/
theorem fetchDownloadCount_failure_not_cached (env : String → FetchOutcome)
    (url : String) (cache : DlCache)
    (h : env url = FetchOutcome.transportError ∨ env url = FetchOutcome.httpError ∨
      env url = FetchOutcome.badJson)
    (hc : cacheLookup cache url = none) :
    fetchDownloadCount env cache url = (0, cache, true) ∧
    fetchDownloadCount env (fetchDownloadCount env cache url).2.1 url =
      (0, cache, true) := by
  have h1 : fetchDownloadCount env cache url = (0, cache, true) := by
    unfold fetchDownloadCount
    rcases h with h | h | h <;> rw [hc, h]
  refine ⟨h1, ?_⟩
  rw [h1]
  exact h1

theorem fetchDownloadCount_failure_not_cached_witness :
    (envAllFail "https://u" = FetchOutcome.transportError ∨
      envAllFail "https://u" = FetchOutcome.httpError ∨
      envAllFail "https://u" = FetchOutcome.badJson) ∧
    cacheLookup [] "https://u" = none ∧
    fetchDownloadCount envAllFail [] "https://u" = (0, [], true) ∧
    fetchDownloadCount envAllFail
      (fetchDownloadCount envAllFail [] "https://u").2.1 "https://u" = (0, [], true) :=
  ⟨Or.inl rfl, rfl,
   (fetchDownloadCount_failure_not_cached envAllFail "https://u" [] (Or.inl rfl) rfl).1,
   (fetchDownloadCount_failure_not_cached envAllFail "https://u" [] (Or.inl rfl) rfl).2⟩
